import Mathlib

/-!
Verification of the scoring and enrichment pipeline of the `bgr` repository
(`generate_page.py` and `rank_games.py`).  Python `int` is modelled as `ℤ`,
Python `float` arithmetic as real (or, where no square root occurs, rational)
arithmetic, `math.sqrt` as `Real.sqrt`, Python exceptions as `Except`, and
Python sets of strings as deduplicated lists / `Finset`s.
-/

namespace BGR

/-- Model of `generate_page.DEFAULT_Z`, the z-score for a 99.5% one-sided
Wilson interval. -/
noncomputable def DEFAULT_Z : ℝ := 2.576

/-- Model of `generate_page.wilson_lower_bound_10pt`: the Wilson lower
confidence bound for a 1-10 rating scale.  `math.sqrt` is modelled by
`Real.sqrt`; the two agree wherever the Python call does not raise a domain
error, i.e. wherever the radicand is non-negative. -/
noncomputable def wilson_lower_bound_10pt (n : ℤ) (S : ℝ) (z : ℝ) : ℝ :=
  if n ≤ 0 then 0
  else
    let R : ℝ := S / (n : ℝ)
    let p : ℝ := (R - 1) / 9
    let denom : ℝ := 1 + z * z / (n : ℝ)
    let centre : ℝ := p + z * z / (2 * (n : ℝ))
    let adj : ℝ := z * Real.sqrt ((p * (1 - p) + z * z / (4 * (n : ℝ))) / (n : ℝ))
    1 + 9 * ((centre - adj) / denom)

/-- Model of `generate_page.PRIOR_VOTES` (pseudo-ratings added as a prior). -/
def PRIOR_VOTES : ℤ := 25

/-- Model of `generate_page.PRIOR_RATING` (prior mean rating). -/
noncomputable def PRIOR_RATING : ℝ := 6.5

/-- Model of `generate_page.weighted_score`: Wilson lower bound with
`PRIOR_VOTES` pseudo-votes at rating `PRIOR_RATING`, at the default `z`. -/
noncomputable def weighted_score (n : ℤ) (S : ℝ) : ℝ :=
  wilson_lower_bound_10pt (n + PRIOR_VOTES) (S + (PRIOR_VOTES : ℝ) * PRIOR_RATING) DEFAULT_Z

namespace RankGames

/-- Model of `rank_games.wilson_lower_bound_10pt`.  The body is textually the
same formula as in `generate_page.py`; only the default `z` (2.326 there)
differs, and `z` is an explicit argument here. -/
noncomputable def wilson_lower_bound_10pt (n : ℤ) (S : ℝ) (z : ℝ) : ℝ :=
  if n ≤ 0 then 0
  else
    let R : ℝ := S / (n : ℝ)
    let p : ℝ := (R - 1) / 9
    let denom : ℝ := 1 + z * z / (n : ℝ)
    let centre : ℝ := p + z * z / (2 * (n : ℝ))
    let adj : ℝ := z * Real.sqrt ((p * (1 - p) + z * z / (4 * (n : ℝ))) / (n : ℝ))
    1 + 9 * ((centre - adj) / denom)

end RankGames

/-- Model of `generate_page.status_for_rank`: emoji and label for a BGG rank. -/
def status_for_rank (rank : ℤ) : String × String :=
  if rank ≤ 200 then ("🔥", "Bestseller")
  else if rank ≤ 1000 then ("🔎", "Rare find")
  else ("💎", "Hidden gem")

/-- Model of `generate_page.complexity_status`: emoji and label for a game
complexity weight.  Python floats are modelled as rationals here (no square
root is involved), which keeps every comparison decidable. -/
def complexity_status (weight : ℚ) : String × String :=
  if weight < 2 then ("🟢", "Light")
  else if weight < 3 then ("🟡", "Medium")
  else if weight < 4 then ("🟠", "Complicated")
  else ("🔴", "Hardcore")

/-- Result of `generate_page.parse_details` (and of the memoised
`fetch_details`): the dict with keys `weight`, `is_expansion`,
`reimplements`, `has_versions`, `n_versions`. -/
structure Details where
  weight : ℚ
  is_expansion : Bool
  reimplements : Bool
  has_versions : Bool
  n_versions : ℕ
deriving Repr, DecidableEq

/-- Relevant content of the XML document handed to
`generate_page.parse_details`, already structurally parsed: the `item`
node type, the value of the `averageweight` statistics node when present,
whether an inbound `boardgameimplementation` link exists, the `id`
attributes of the items under the `versions` node, and the `id` attributes
of the inbound `boardgameversion` links.  An `id` attribute can be absent
(`attrib.get` returns `None` in Python), hence `Option String`. -/
structure ItemDoc where
  itemType : String
  averageweight : Option ℚ
  inboundImplementation : Bool
  versionItemIds : List (Option String)
  inboundVersionIds : List (Option String)

/-- Model of `generate_page.parse_details`.  The Python set comprehensions
building `version_ids` and `link_ids` are modelled by `filter` followed by
`dedup`, and the set union by deduplicating the concatenation. -/
def parse_details (doc : ItemDoc) (game_id : ℤ) : Details :=
  let version_ids := (doc.versionItemIds.filter (fun v => v != some (toString game_id))).dedup
  let link_ids := (doc.inboundVersionIds.filter (fun l => l != some (toString game_id))).dedup
  let unique_versions := (version_ids ++ link_ids).dedup
  { weight := doc.averageweight.getD 0
    is_expansion := doc.itemType == "boardgameexpansion"
    reimplements := doc.inboundImplementation
    has_versions := decide (unique_versions.length > 1)
    n_versions := unique_versions.length }

/-- Value of a list of decimal digit characters, most significant first. -/
def digitsToNat (cs : List Char) : ℕ :=
  cs.foldl (fun acc c => acc * 10 + (c.toNat - 48)) 0

/-- Model of Python `int(s)` on canonical decimal strings: an optional minus
sign followed by at least one digit; any other shape fails (`none`, the
`ValueError` / `KeyError` branch).  Surface variations Python also accepts
(surrounding whitespace, a plus sign, underscores) are not modelled. -/
def pyInt (s : String) : Option ℤ :=
  match s.toList with
  | [] => none
  | '-' :: rest =>
    if !rest.isEmpty && rest.all Char.isDigit then some (-(digitsToNat rest : ℤ)) else none
  | cs =>
    if cs.all Char.isDigit then some ((digitsToNat cs : ℤ)) else none

/-- Magnitude part of `pyFloat`: digits with an optional fractional part. -/
def pyFloatMag (cs : List Char) : Option ℚ :=
  let ip := cs.takeWhile (fun c => c != '.')
  let rest := cs.dropWhile (fun c => c != '.')
  match rest with
  | [] =>
    if !ip.isEmpty && ip.all Char.isDigit then some ((digitsToNat ip : ℚ)) else none
  | _ :: fp =>
    if (!ip.isEmpty || !fp.isEmpty) && ip.all Char.isDigit && fp.all Char.isDigit then
      some ((digitsToNat ip : ℚ) + (digitsToNat fp : ℚ) / (10 : ℚ) ^ fp.length)
    else none

/-- Model of Python `float(s)` on canonical decimal strings: an optional
minus sign, then digits with at most one decimal point (at least one digit
overall); any other shape fails (`none`).  Exponent forms, `inf`/`nan` and
surrounding whitespace are not modelled; floats are modelled as rationals. -/
def pyFloat (s : String) : Option ℚ :=
  match s.toList with
  | [] => none
  | '-' :: rest => (pyFloatMag rest).map (fun q => -q)
  | cs => pyFloatMag cs

/-- One CSV row as seen by `generate_page.read_games`: the fields the code
reads, each `none` when the column is missing from the row. -/
structure RawRow where
  ID : Option String
  usersRated : Option String
  average : Option String
  rank : Option String
  thumbnail : Option String

/-- Record built by `generate_page.read_games` for one well-formed row:
the parsed numeric fields plus the derived `wilson` and `weighted` scores. -/
structure Game where
  id : ℤ
  usersRated : ℤ
  average : ℚ
  bggRank : ℤ
  thumb : String
  wilson : ℝ
  weighted : ℝ

/-- Model of one iteration of the row loop in `generate_page.read_games`:
`some` of the record when all four required numeric fields parse, `none`
when the `try` block raises `ValueError` or `KeyError` (the `continue`
branch). -/
noncomputable def rowGame (row : RawRow) : Option Game :=
  match row.ID.bind pyInt, row.usersRated.bind pyInt, row.average.bind pyFloat,
      row.rank.bind pyInt with
  | some row_id, some n, some avg, some bgg_rank =>
    some { id := row_id
           usersRated := n
           average := avg
           bggRank := bgg_rank
           thumb := row.thumbnail.getD ("")
           wilson := wilson_lower_bound_10pt n ((avg * (n : ℚ) : ℚ) : ℝ) DEFAULT_Z
           weighted := weighted_score n ((avg * (n : ℚ) : ℚ) : ℝ) }
  | _, _, _, _ => none

/-- Model of `generate_page.read_games`: rows whose required numeric fields
fail to parse are skipped (`continue`), the rest are kept in order. -/
noncomputable def read_games : List RawRow → List Game
  | [] => []
  | row :: rest =>
    match rowGame row with
    | none => read_games rest
    | some g => g :: read_games rest

/-- One CSV row as seen by `rank_games.load_ratings`; `none` marks a missing
column. -/
structure RatingsRow where
  name : Option String
  votes : Option String
  sum_scores : Option String

namespace RankGames

/-- Model of `rank_games.load_ratings`.  Unlike `read_games`, the body has no
`try`/`except`: a missing `name` key raises `KeyError`, and an unparseable
`votes` or `sum_scores` raises `ValueError`/`KeyError`; either exception
propagates and aborts the whole load, modelled as `Except.error ()`. -/
def load_ratings : List RatingsRow → Except Unit (List (String × ℤ × ℚ))
  | [] => Except.ok []
  | row :: rest =>
    match row.name, row.votes.bind pyInt, row.sum_scores.bind pyFloat with
    | some name, some votes, some s =>
      match load_ratings rest with
      | Except.ok games => Except.ok ((name, votes, s) :: games)
      | Except.error e => Except.error e
    | _, _, _ => Except.error ()

end RankGames

/-- Process-lifetime state of the memoised `generate_page.fetch_details`:
the `lru_cache(maxsize=None)` contents, plus the log of every outbound
network call (`requests.get`) issued so far, in order. -/
structure FetchState where
  cache : List (ℤ × Details)
  requests : List ℤ

/-- Lookup in the memoisation cache. -/
def cacheLookup : List (ℤ × Details) → ℤ → Option Details
  | [], _ => none
  | (key, d) :: rest, gid => if key = gid then some d else cacheLookup rest gid

/-- Model of `generate_page.fetch_details` under `lru_cache(maxsize=None)`.
`net gid` is the outcome of `requests.get` + `raise_for_status` +
`parse_details` for that identifier: `Except.error` models a non-2xx
response or transport failure (`RemoteFetchError`).  On a cache hit the
memoised value is returned and no network call is made; on a miss the
network call is logged in `requests`, and — matching CPython's `lru_cache`,
which stores only normal returns — the result is cached only when the call
succeeds, while an exception propagates uncached. -/
def fetch_details (net : ℤ → Except Unit Details) (st : FetchState) (gid : ℤ) :
    Except Unit Details × FetchState :=
  match cacheLookup st.cache gid with
  | some d => (Except.ok d, st)
  | none =>
    match net gid with
    | Except.ok d => (Except.ok d, ⟨(gid, d) :: st.cache, st.requests ++ [gid]⟩)
    | Except.error e => (Except.error e, ⟨st.cache, st.requests ++ [gid]⟩)

/-- Run a sequence of `fetch_details` calls, threading the process-lifetime
state; the caller goes on regardless of each call's outcome. -/
def runSeq (net : ℤ → Except Unit Details) : FetchState → List ℤ → FetchState
  | st, [] => st
  | st, gid :: rest => runSeq net (fetch_details net st gid).2 rest

/-- Model of the enrichment loop in `generate_page.main` (`for g in
all_games: if g["id"] in top_ids: details = fetch_details(g["id"]) ...`):
collects the `detail_rows`, threading the fetch state.  There is no
`try`/`except` in `main`, so the first failing fetch propagates and the
whole loop aborts with that error. -/
def enrichTop (net : ℤ → Except Unit Details) (topIds : List ℤ) :
    FetchState → List Game → Except Unit (List (ℤ × Details) × FetchState)
  | st, [] => Except.ok ([], st)
  | st, g :: rest =>
    if g.id ∈ topIds then
      match fetch_details net st g.id with
      | (Except.ok d, st₁) =>
        match enrichTop net topIds st₁ rest with
        | Except.ok (rows, st₂) => Except.ok ((g.id, d) :: rows, st₂)
        | Except.error e => Except.error e
      | (Except.error e, _) => Except.error e
    else enrichTop net topIds st rest

/-- Enrichment part of `generate_page.main`, starting from the empty cache
of a fresh process: either the list of detail rows (after which the report
is written), or the uncaught fetch error that aborts the run before any
report is produced. -/
def mainEnrich (net : ℤ → Except Unit Details) (topIds : List ℤ) (games : List Game) :
    Except Unit (List (ℤ × Details)) :=
  match enrichTop net topIds ⟨[], []⟩ games with
  | Except.ok (rows, _) => Except.ok rows
  | Except.error e => Except.error e

/-- Soundness of the memoisation cache relative to the network: every cached
entry is the network's (successful) response for its identifier. -/
def CacheSound (net : ℤ → Except Unit Details) (st : FetchState) : Prop :=
  ∀ g d, cacheLookup st.cache g = some d → net g = Except.ok d

/-- Whether the network call for an identifier succeeds. -/
def isOkB (net : ℤ → Except Unit Details) (gid : ℤ) : Bool :=
  match net gid with
  | Except.ok _ => true
  | Except.error _ => false

/-- Invariant of the memoisation state relative to the network: cached
entries agree with the network, every successfully requested identifier is
cached, and the successful outbound requests carry pairwise distinct
identifiers. -/
def FetchInv (net : ℤ → Except Unit Details) (st : FetchState) : Prop :=
  CacheSound net st ∧
  (∀ g, g ∈ st.requests → isOkB net g = true → cacheLookup st.cache g ≠ none) ∧
  (st.requests.filter (isOkB net)).Nodup

/-! Helper lemmas about the Wilson bound. -/

/-- Unfolding lemma for the positive-votes branch of the Wilson bound. -/
theorem wilson_pos_eval (n : ℤ) (hn : 0 < n) (S z : ℝ) :
    wilson_lower_bound_10pt n S z =
      1 + 9 * (((S / (n : ℝ) - 1) / 9 + z * z / (2 * (n : ℝ))
        - z * Real.sqrt ((((S / (n : ℝ) - 1) / 9) * (1 - (S / (n : ℝ) - 1) / 9)
            + z * z / (4 * (n : ℝ))) / (n : ℝ))) / (1 + z * z / (n : ℝ))) := by
  simp only [wilson_lower_bound_10pt]
  rw [if_neg (by omega)]

/-- Unfolding lemma for the Wilson bound at one vote. -/
theorem wilson_one_eval (S z : ℝ) :
    wilson_lower_bound_10pt 1 S z
      = 1 + 9 * (((S - 1) / 9 + z * z / 2
          - z * Real.sqrt ((S - 1) / 9 * (1 - (S - 1) / 9) + z * z / 4))
            / (1 + z * z)) := by
  rw [wilson_pos_eval 1 one_pos S z]
  norm_num

/-- Symmetric bound from a square comparison: `x ≤ s` and `-x ≤ s` follow
from `x ^ 2 ≤ s ^ 2` and `0 ≤ s`. -/
theorem le_and_neg_le_of_sq_le_sq (x s : ℝ) (hs : 0 ≤ s) (h : x ^ 2 ≤ s ^ 2) :
    x ≤ s ∧ -x ≤ s := by
  have h1 : |x| ≤ s := by
    have h2 := Real.sqrt_le_sqrt h
    rwa [Real.sqrt_sq_eq_abs, Real.sqrt_sq hs] at h2
  exact ⟨(le_abs_self x).trans h1, (neg_le_abs x).trans h1⟩

set_option maxHeartbeats 1600000 in
/-- Monotonicity of the positive-votes Wilson kernel in the rescaled
proportion `p` on `[0, 1]`, for every `z` and every `N > 0`. -/
theorem wilson_core_mono (N z p₁ p₂ : ℝ) (hN : 0 < N) (hp₀ : 0 ≤ p₁)
    (hp₁₂ : p₁ ≤ p₂) (hp₂ : p₂ ≤ 1) :
    (p₁ + z * z / (2 * N) - z * Real.sqrt ((p₁ * (1 - p₁) + z * z / (4 * N)) / N))
        / (1 + z * z / N)
      ≤ (p₂ + z * z / (2 * N) - z * Real.sqrt ((p₂ * (1 - p₂) + z * z / (4 * N)) / N))
        / (1 + z * z / N) := by
  have hden : 0 < 1 + z * z / N := by
    have h1 : 0 ≤ z * z / N := div_nonneg (mul_self_nonneg z) hN.le
    linarith
  have hN0 : N ≠ 0 := ne_of_gt hN
  have hzz : 0 ≤ z * z / (4 * N) := div_nonneg (mul_self_nonneg z) (by linarith)
  have hq₁ : 0 ≤ p₁ * (1 - p₁) := mul_nonneg hp₀ (by linarith)
  have hq₂ : 0 ≤ p₂ * (1 - p₂) := mul_nonneg (by linarith) (by linarith)
  have hg₁ : 0 ≤ (p₁ * (1 - p₁) + z * z / (4 * N)) / N :=
    div_nonneg (add_nonneg hq₁ hzz) hN.le
  have hg₂ : 0 ≤ (p₂ * (1 - p₂) + z * z / (4 * N)) / N :=
    div_nonneg (add_nonneg hq₂ hzz) hN.le
  set a₁ := Real.sqrt ((p₁ * (1 - p₁) + z * z / (4 * N)) / N) with ha₁def
  set a₂ := Real.sqrt ((p₂ * (1 - p₂) + z * z / (4 * N)) / N) with ha₂def
  have ha₁ : 0 ≤ a₁ := Real.sqrt_nonneg _
  have ha₂ : 0 ≤ a₂ := Real.sqrt_nonneg _
  have hsq₁ : a₁ ^ 2 = (p₁ * (1 - p₁) + z * z / (4 * N)) / N := Real.sq_sqrt hg₁
  have hsq₂ : a₂ ^ 2 = (p₂ * (1 - p₂) + z * z / (4 * N)) / N := Real.sq_sqrt hg₂
  have hA₁ : (N * a₁) ^ 2 = N * (p₁ * (1 - p₁)) + z * z / 4 := by
    rw [mul_pow, hsq₁]
    field_simp [hN0]
    ring
  have hA₂ : (N * a₂) ^ 2 = N * (p₂ * (1 - p₂)) + z * z / 4 := by
    rw [mul_pow, hsq₂]
    field_simp [hN0]
    ring
  have hAn₁ : 0 ≤ N * a₁ := mul_nonneg hN.le ha₁
  have hAn₂ : 0 ≤ N * a₂ := mul_nonneg hN.le ha₂
  have hNq₁ : 0 ≤ N * (p₁ * (1 - p₁)) := mul_nonneg hN.le hq₁
  have hNq₂ : 0 ≤ N * (p₂ * (1 - p₂)) := mul_nonneg hN.le hq₂
  have hzb₁ := le_and_neg_le_of_sq_le_sq z (2 * (N * a₁)) (by linarith)
    (by nlinarith [hA₁, hNq₁])
  have hzb₂ := le_and_neg_le_of_sq_le_sq z (2 * (N * a₂)) (by linarith)
    (by nlinarith [hA₂, hNq₂])
  obtain ⟨hz₁, hz₁n⟩ := hzb₁
  obtain ⟨hz₂, hz₂n⟩ := hzb₂
  have key : z * (1 - p₁ - p₂) ≤ N * a₁ + N * a₂ := by
    rcases le_or_lt 0 z with hz | hz
    · have h1 : z * (1 - p₁ - p₂) ≤ z := by
        nlinarith [mul_nonneg hz (show 0 ≤ p₁ + p₂ by linarith)]
      linarith
    · have h1 : z * (1 - p₁ - p₂) ≤ -z := by
        nlinarith [mul_nonneg (le_of_lt (neg_pos.mpr hz)) (show 0 ≤ 2 - p₁ - p₂ by linarith)]
      linarith
  have hmain : z * a₂ - z * a₁ ≤ p₂ - p₁ := by
    have hdiff : (N * a₂) ^ 2 - (N * a₁) ^ 2 = N * ((p₂ - p₁) * (1 - p₁ - p₂)) := by
      rw [hA₁, hA₂]
      ring
    rcases eq_or_lt_of_le (add_nonneg hAn₁ hAn₂) with hsum | hsum
    · have h₁ : N * a₁ = 0 := by linarith
      have h₂ : N * a₂ = 0 := by linarith
      have e₁ : a₁ = 0 := by
        rcases mul_eq_zero.mp h₁ with h | h
        · exact absurd h hN0
        · exact h
      have e₂ : a₂ = 0 := by
        rcases mul_eq_zero.mp h₂ with h | h
        · exact absurd h hN0
        · exact h
      rw [e₁, e₂]
      simp only [mul_zero, sub_zero, sub_self]
      linarith
    · have hpp : 0 ≤ N * (p₂ - p₁) := mul_nonneg hN.le (by linarith)
      have h6 := mul_le_mul_of_nonneg_right key hpp
      have h7 : 0 ≤ (N * a₁ + N * a₂) * ((N * (p₂ - p₁)) - (z * (N * a₂) - z * (N * a₁))) := by
        nlinarith [h6, hdiff]
      have h8 : 0 ≤ (N * (p₂ - p₁)) - (z * (N * a₂) - z * (N * a₁)) := by
        by_contra hcon
        push_neg at hcon
        nlinarith [h7, hsum, hcon]
      nlinarith [h8, hN]
  have hnum : p₁ + z * z / (2 * N) - z * a₁ ≤ p₂ + z * z / (2 * N) - z * a₂ := by linarith
  exact (div_le_div_right hden).mpr hnum

/-- Non-negativity of the positive-votes Wilson kernel for `p ∈ [0, 1]` and
`z ≥ 0` (the lower bound never drops below the bottom of the scale). -/
theorem wilson_core_lower (N z p : ℝ) (hN : 0 < N) (hp₀ : 0 ≤ p) (hp₁ : p ≤ 1) (hz : 0 ≤ z) :
    0 ≤ (p + z * z / (2 * N) - z * Real.sqrt ((p * (1 - p) + z * z / (4 * N)) / N))
        / (1 + z * z / N) := by
  have hden : 0 < 1 + z * z / N := by
    have h1 : 0 ≤ z * z / N := div_nonneg (mul_self_nonneg z) hN.le
    linarith
  have hN0 : N ≠ 0 := ne_of_gt hN
  have hq : 0 ≤ p * (1 - p) := mul_nonneg hp₀ (by linarith)
  have hg : 0 ≤ (p * (1 - p) + z * z / (4 * N)) / N :=
    div_nonneg (add_nonneg hq (div_nonneg (mul_self_nonneg z) (by linarith))) hN.le
  set a := Real.sqrt ((p * (1 - p) + z * z / (4 * N)) / N) with hadef
  have ha : 0 ≤ a := Real.sqrt_nonneg _
  have hsq : a ^ 2 = (p * (1 - p) + z * z / (4 * N)) / N := Real.sq_sqrt hg
  have hu : 0 ≤ p + z * z / (2 * N) :=
    add_nonneg hp₀ (div_nonneg (mul_self_nonneg z) (by linarith))
  have hid : (p + z * z / (2 * N)) ^ 2 - (z * a) ^ 2 = p ^ 2 * (1 + z * z / N) := by
    rw [mul_pow, hsq]
    field_simp [hN0]
    ring
  have hid2 : 0 ≤ (p + z * z / (2 * N)) ^ 2 - (z * a) ^ 2 := by
    rw [hid]
    exact mul_nonneg (sq_nonneg p) hden.le
  have hkey : z * a ≤ p + z * z / (2 * N) := by
    have hb := le_and_neg_le_of_sq_le_sq (z * a) (p + z * z / (2 * N)) hu (by linarith)
    exact hb.1
  exact div_nonneg (by linarith) hden.le

/-- Upper bound of the positive-votes Wilson kernel by `p` itself for
`p ∈ [0, 1]` and `z ≥ 0` (the bound never exceeds the raw mean). -/
theorem wilson_core_upper (N z p : ℝ) (hN : 0 < N) (hp₀ : 0 ≤ p) (hp₁ : p ≤ 1) (hz : 0 ≤ z) :
    (p + z * z / (2 * N) - z * Real.sqrt ((p * (1 - p) + z * z / (4 * N)) / N))
        / (1 + z * z / N) ≤ p := by
  have hden : 0 < 1 + z * z / N := by
    have h1 : 0 ≤ z * z / N := div_nonneg (mul_self_nonneg z) hN.le
    linarith
  have hN0 : N ≠ 0 := ne_of_gt hN
  have hq : 0 ≤ p * (1 - p) := mul_nonneg hp₀ (by linarith)
  have hg : 0 ≤ (p * (1 - p) + z * z / (4 * N)) / N :=
    div_nonneg (add_nonneg hq (div_nonneg (mul_self_nonneg z) (by linarith))) hN.le
  set a := Real.sqrt ((p * (1 - p) + z * z / (4 * N)) / N) with hadef
  have ha : 0 ≤ a := Real.sqrt_nonneg _
  have hkey : z * z * (1 - 2 * p) ≤ 2 * N * (z * a) := by
    rcases le_or_lt (1 - 2 * p) 0 with hcase | hcase
    · have h1 : z * z * (1 - 2 * p) ≤ 0 := by nlinarith [mul_self_nonneg z]
      have h2 : 0 ≤ 2 * N * (z * a) := mul_nonneg (by linarith) (mul_nonneg hz ha)
      linarith
    · have ht : 0 ≤ z * (1 - 2 * p) / (2 * N) :=
        div_nonneg (mul_nonneg hz (by linarith)) (by linarith)
      have hsq : (z * (1 - 2 * p) / (2 * N)) ^ 2 ≤ (p * (1 - p) + z * z / (4 * N)) / N := by
        rw [le_div_iff hN]
        have hexp : p * (1 - p) + z * z / (4 * N) - (z * (1 - 2 * p) / (2 * N)) ^ 2 * N
            = p * (1 - p) * (1 + z * z / N) := by
          field_simp [hN0]
          ring
        nlinarith [hexp, mul_nonneg hq hden.le]
      have hle : z * (1 - 2 * p) / (2 * N) ≤ a := by
        rw [hadef]
        exact (Real.le_sqrt ht hg).mpr hsq
      have h2N : (0:ℝ) < 2 * N := by linarith
      have h3 := mul_le_mul_of_nonneg_left hle hz
      have h4 : z * (z * (1 - 2 * p) / (2 * N)) = z * z * (1 - 2 * p) / (2 * N) := by ring
      rw [h4] at h3
      have h5 := (div_le_iff h2N).mp h3
      nlinarith [h5, mul_nonneg hz ha, h2N]
  rw [div_le_iff hden]
  have hexp2 : 2 * N * (p * (1 + z * z / N) - (p + z * z / (2 * N) - z * a))
      = 2 * p * (z * z) - z * z + 2 * N * (z * a) := by
    field_simp [hN0]
    ring
  have h6 : 0 ≤ 2 * N * (p * (1 + z * z / N) - (p + z * z / (2 * N) - z * a)) := by
    rw [hexp2]
    nlinarith [hkey]
  nlinarith [h6, hN]

/-- C3: for every `votes ≤ 0` and every `totalScore` and `z`, both copies of
`wilson_lower_bound_10pt` return exactly `0.0`, regardless of `totalScore`
and `z`. -/
theorem C3_nonpositive_votes_zero (n : ℤ) (hn : n ≤ 0) (S z : ℝ) :
    wilson_lower_bound_10pt n S z = 0 ∧ RankGames.wilson_lower_bound_10pt n S z = 0 := by
  constructor
  · simp only [wilson_lower_bound_10pt]
    rw [if_pos hn]
  · simp only [RankGames.wilson_lower_bound_10pt]
    rw [if_pos hn]

/-- Witness for C3 at `votes = 0`, `totalScore = 7`, `z = 2.576`. -/
theorem C3_witness :
    (0 : ℤ) ≤ 0 ∧ wilson_lower_bound_10pt 0 7 2.576 = 0
      ∧ RankGames.wilson_lower_bound_10pt 0 7 2.576 = 0 :=
  ⟨le_refl 0, (C3_nonpositive_votes_zero 0 (le_refl 0) 7 2.576).1,
    (C3_nonpositive_votes_zero 0 (le_refl 0) 7 2.576).2⟩

/-- C4: `weighted_score votes totalScore` with the default priors equals
`wilson_lower_bound_10pt (votes + 25) (totalScore + 25 * 6.5) 2.576`
exactly. -/
theorem C4_weighted_score_default_priors (n : ℤ) (S : ℝ) :
    weighted_score n S = wilson_lower_bound_10pt (n + 25) (S + 25 * 6.5) 2.576 := by
  unfold weighted_score PRIOR_VOTES PRIOR_RATING DEFAULT_Z
  norm_num

/-- C6: `status_for_rank` is total on `ℤ` and maps `rank ≤ 200` to Bestseller,
`200 < rank ≤ 1000` to Rare find and `rank > 1000` to Hidden gem; in
particular the boundary values 200, 201, 1000, 1001 behave as stated. -/
theorem C6_status_for_rank_thresholds :
    (∀ rank : ℤ,
      (rank ≤ 200 → status_for_rank rank = ("🔥", "Bestseller")) ∧
      (200 < rank → rank ≤ 1000 → status_for_rank rank = ("🔎", "Rare find")) ∧
      (1000 < rank → status_for_rank rank = ("💎", "Hidden gem"))) ∧
    status_for_rank 200 = ("🔥", "Bestseller") ∧
    status_for_rank 201 = ("🔎", "Rare find") ∧
    status_for_rank 1000 = ("🔎", "Rare find") ∧
    status_for_rank 1001 = ("💎", "Hidden gem") := by
  refine ⟨fun rank => ⟨fun h => ?_, fun h₁ h₂ => ?_, fun h => ?_⟩, by decide, by decide,
    by decide, by decide⟩
  · unfold status_for_rank
    rw [if_pos h]
  · unfold status_for_rank
    rw [if_neg (by omega), if_pos h₂]
  · unfold status_for_rank
    rw [if_neg (by omega), if_neg (by omega)]

/-- Witness for C6 at the boundary ranks 200, 201 and 1001. -/
theorem C6_witness :
    ((200 : ℤ) ≤ 200 ∧ status_for_rank 200 = ("🔥", "Bestseller")) ∧
    ((200 : ℤ) < 201 ∧ (201 : ℤ) ≤ 1000 ∧ status_for_rank 201 = ("🔎", "Rare find")) ∧
    ((1000 : ℤ) < 1001 ∧ status_for_rank 1001 = ("💎", "Hidden gem")) :=
  ⟨⟨by norm_num, (C6_status_for_rank_thresholds.1 200).1 (by norm_num)⟩,
   ⟨by norm_num, by norm_num,
     (C6_status_for_rank_thresholds.1 201).2.1 (by norm_num) (by norm_num)⟩,
   ⟨by norm_num, (C6_status_for_rank_thresholds.1 1001).2.2 (by norm_num)⟩⟩

/-- C7: `complexity_status` is total and maps `weight < 2` to Light,
`2 ≤ weight < 3` to Medium, `3 ≤ weight < 4` to Complicated and
`weight ≥ 4` to Hardcore; negative weights fall into Light; the stated
boundary values behave as stated. -/
theorem C7_complexity_status_thresholds :
    (∀ w : ℚ,
      (w < 2 → complexity_status w = ("🟢", "Light")) ∧
      (2 ≤ w → w < 3 → complexity_status w = ("🟡", "Medium")) ∧
      (3 ≤ w → w < 4 → complexity_status w = ("🟠", "Complicated")) ∧
      (4 ≤ w → complexity_status w = ("🔴", "Hardcore")) ∧
      (w < 0 → complexity_status w = ("🟢", "Light"))) ∧
    complexity_status (1.999) = ("🟢", "Light") ∧
    complexity_status 2 = ("🟡", "Medium") ∧
    complexity_status (2.999) = ("🟡", "Medium") ∧
    complexity_status 3 = ("🟠", "Complicated") ∧
    complexity_status 4 = ("🔴", "Hardcore") := by
  refine ⟨fun w => ⟨fun h => ?_, fun h₁ h₂ => ?_, fun h₁ h₂ => ?_, fun h => ?_, fun h => ?_⟩,
    ?_, ?_, ?_, ?_, ?_⟩
  · unfold complexity_status
    rw [if_pos h]
  · unfold complexity_status
    rw [if_neg (by linarith), if_pos h₂]
  · unfold complexity_status
    rw [if_neg (by linarith), if_neg (by linarith), if_pos h₂]
  · unfold complexity_status
    rw [if_neg (by linarith), if_neg (by linarith), if_neg (by linarith)]
  · unfold complexity_status
    rw [if_pos (by linarith)]
  all_goals norm_num [complexity_status]

/-- C10: for every `votes > 0`, every `z ≥ 1` and every `totalScore` with
`votes ≤ totalScore ≤ 10 * votes`, the Wilson bound lies in `[1, 10]` and
never exceeds the raw average `totalScore / votes`. -/
theorem C10_range_and_average (n : ℤ) (S z : ℝ) (hn : 0 < n) (hz : 1 ≤ z)
    (hS₁ : (n : ℝ) ≤ S) (hS₂ : S ≤ 10 * (n : ℝ)) :
    1 ≤ wilson_lower_bound_10pt n S z ∧ wilson_lower_bound_10pt n S z ≤ 10 ∧
      wilson_lower_bound_10pt n S z ≤ S / (n : ℝ) := by
  have hN : (0 : ℝ) < (n : ℝ) := by exact_mod_cast hn
  have hz₀ : (0 : ℝ) ≤ z := by linarith
  have hR₁ : 1 ≤ S / (n : ℝ) := (one_le_div hN).mpr hS₁
  have hR₂ : S / (n : ℝ) ≤ 10 := (div_le_iff hN).mpr (by linarith)
  rw [wilson_pos_eval n hn S z]
  set p := (S / (n : ℝ) - 1) / 9 with hpdef
  have hp₀ : 0 ≤ p := by rw [hpdef]; linarith
  have hp₁ : p ≤ 1 := by rw [hpdef]; linarith
  have hlow := wilson_core_lower (n : ℝ) z p hN hp₀ hp₁ hz₀
  have hup := wilson_core_upper (n : ℝ) z p hN hp₀ hp₁ hz₀
  have hmean : 1 + 9 * p = S / (n : ℝ) := by rw [hpdef]; ring
  exact ⟨by linarith, by linarith, by linarith⟩

/-- Witness for C10 at `votes = 1`, `totalScore = 5`, `z = 2.576`. -/
theorem C10_witness :
    (0 : ℤ) < 1 ∧ (1 : ℝ) ≤ 2.576 ∧ ((1 : ℤ) : ℝ) ≤ 5 ∧ (5 : ℝ) ≤ 10 * ((1 : ℤ) : ℝ) ∧
      (1 ≤ wilson_lower_bound_10pt 1 5 2.576 ∧ wilson_lower_bound_10pt 1 5 2.576 ≤ 10 ∧
        wilson_lower_bound_10pt 1 5 2.576 ≤ 5 / ((1 : ℤ) : ℝ)) :=
  ⟨by norm_num, by norm_num, by norm_num, by norm_num,
    C10_range_and_average 1 5 2.576 (by norm_num) (by norm_num) (by norm_num) (by norm_num)⟩

/-- C2 (amended): for fixed `votes > 0` and fixed `z`, the Wilson bound is
non-decreasing in `totalScore` on the range `votes ≤ totalScore ≤ 10 * votes`,
i.e. as long as the mean rating stays within the 1-10 scale.  (Below that
range the bound can decrease as `totalScore` increases; see the
counterexample.) -/
theorem C2_amended_monotone_on_scale (n : ℤ) (z S₁ S₂ : ℝ) (hn : 0 < n)
    (h₁ : (n : ℝ) ≤ S₁) (h₁₂ : S₁ ≤ S₂) (h₂ : S₂ ≤ 10 * (n : ℝ)) :
    wilson_lower_bound_10pt n S₁ z ≤ wilson_lower_bound_10pt n S₂ z := by
  have hN : (0 : ℝ) < (n : ℝ) := by exact_mod_cast hn
  rw [wilson_pos_eval n hn S₁ z, wilson_pos_eval n hn S₂ z]
  have hd₁ : 1 ≤ S₁ / (n : ℝ) := (one_le_div hN).mpr h₁
  have hd₁₂ : S₁ / (n : ℝ) ≤ S₂ / (n : ℝ) := by
    apply div_le_div_of_nonneg_right h₁₂ hN.le
  have hd₂ : S₂ / (n : ℝ) ≤ 10 := (div_le_iff hN).mpr (by linarith)
  have hcore := wilson_core_mono (n : ℝ) z ((S₁ / (n : ℝ) - 1) / 9) ((S₂ / (n : ℝ) - 1) / 9)
    hN (by linarith) (by linarith) (by linarith)
  linarith

/-- Witness for the amended C2 at `votes = 1`, `totalScore` from 3 to 4,
`z = 2.576`. -/
theorem C2_witness :
    (0 : ℤ) < 1 ∧ ((1 : ℤ) : ℝ) ≤ 3 ∧ (3 : ℝ) ≤ 4 ∧ (4 : ℝ) ≤ 10 * ((1 : ℤ) : ℝ) ∧
      wilson_lower_bound_10pt 1 3 2.576 ≤ wilson_lower_bound_10pt 1 4 2.576 :=
  ⟨by norm_num, by norm_num, by norm_num, by norm_num,
    C2_amended_monotone_on_scale 1 2.576 3 4 (by norm_num) (by norm_num) (by norm_num)
      (by norm_num)⟩

/-- C2 counterexample: at `votes = 1` and `z = 2.576` (the default), with the
non-negative total scores `0 ≤ 1/2`, the Wilson bound strictly decreases:
`wilson_lower_bound_10pt 1 0 2.576 > wilson_lower_bound_10pt 1 (1/2) 2.576`,
so the bound is not non-decreasing in `totalScore` over all non-negative
total scores.  (Both evaluations stay inside `math.sqrt`'s domain, so the
Python code computes exactly these values.) -/
theorem C2_counterexample :
    ¬ (wilson_lower_bound_10pt 1 0 2.576 ≤ wilson_lower_bound_10pt 1 (1/2) 2.576) := by
  rw [not_le, wilson_one_eval (1/2) 2.576, wilson_one_eval 0 2.576]
  rw [show ((0 : ℝ) - 1) / 9 * (1 - ((0 : ℝ) - 1) / 9) + 2.576 * 2.576 / 4
      = 1943351 / 1265625 from by norm_num]
  rw [show ((1 : ℝ) / 2 - 1) / 9 * (1 - ((1 : ℝ) / 2 - 1) / 9) + 2.576 * 2.576 / 4
      = 8101529 / 5062500 from by norm_num]
  set A := Real.sqrt ((1943351 : ℝ) / 1265625) with hA
  set B := Real.sqrt ((8101529 : ℝ) / 5062500) with hB
  have hA0 : 0 ≤ A := Real.sqrt_nonneg _
  have hB0 : 0 ≤ B := Real.sqrt_nonneg _
  have hA2 : A ^ 2 = (1943351 : ℝ) / 1265625 := Real.sq_sqrt (by norm_num)
  have hB2 : B ^ 2 = (8101529 : ℝ) / 5062500 := Real.sq_sqrt (by norm_num)
  have hAub : A ≤ 5 / 4 := by
    rw [hA]
    exact Real.sqrt_le_iff.mpr (by norm_num)
  have hBub : B ≤ 127 / 100 := by
    rw [hB]
    exact Real.sqrt_le_iff.mpr (by norm_num)
  have hApos : 0 < A := by
    rw [hA]
    exact Real.sqrt_pos.mpr (by norm_num)
  have hsum0 : 0 < A + B := by linarith
  have hdiff : (B - A) * (B + A) = 7 / 108 := by
    have h1 : (B - A) * (B + A) = B ^ 2 - A ^ 2 := by ring
    rw [h1, hA2, hB2]
    norm_num
  have hmain : 1 / 18 < 2.576 * B - 2.576 * A := by
    nlinarith [hdiff, hAub, hBub, hsum0, hA0, hB0]
  have hD : (0 : ℝ) < 1 + 2.576 * 2.576 := by norm_num
  have hXY : ((1 : ℝ) / 2 - 1) / 9 + 2.576 * 2.576 / 2 - 2.576 * B
      < ((0 : ℝ) - 1) / 9 + 2.576 * 2.576 / 2 - 2.576 * A := by
    norm_num
    linarith
  have hdiv := (div_lt_div_right hD).mpr hXY
  linarith

/-- Witness for C7 at weights 1.999, 2.0, 3.0 and 4.0. -/
theorem C7_witness :
    ((1.999 : ℚ) < 2 ∧ complexity_status 1.999 = ("🟢", "Light")) ∧
    ((2 : ℚ) ≤ 2 ∧ (2 : ℚ) < 3 ∧ complexity_status 2 = ("🟡", "Medium")) ∧
    ((3 : ℚ) ≤ 3 ∧ (3 : ℚ) < 4 ∧ complexity_status 3 = ("🟠", "Complicated")) ∧
    ((4 : ℚ) ≤ 4 ∧ complexity_status 4 = ("🔴", "Hardcore")) :=
  ⟨⟨by norm_num, (C7_complexity_status_thresholds.1 1.999).1 (by norm_num)⟩,
   ⟨by norm_num, by norm_num,
     (C7_complexity_status_thresholds.1 2).2.1 (by norm_num) (by norm_num)⟩,
   ⟨by norm_num, by norm_num,
     (C7_complexity_status_thresholds.1 3).2.2.1 (by norm_num) (by norm_num)⟩,
   ⟨by norm_num, (C7_complexity_status_thresholds.1 4).2.2.2.1 (by norm_num)⟩⟩

/-- Deduplicating a list does not change the finset of its elements. -/
theorem list_toFinset_dedup {α : Type} [DecidableEq α] (l : List α) :
    l.dedup.toFinset = l.toFinset := by
  ext a
  simp [List.mem_dedup]

/-- C5: `parse_details` computes the distinct version count as the size of
the union of (a) the identifiers listed under the versions sub-structure and
(b) the identifiers of inbound version relationship links, with the
identifier equal to `game_id` itself excluded from both sources and
duplicates within and across the two sources collapsing; in particular, for
a versions list `[A, A, B]` and inbound version links `[B, C]` with own id
`A` (= "1" for game id 1), the count is 2. -/
theorem C5_version_count_union :
    (∀ (doc : ItemDoc) (gid : ℤ),
      (parse_details doc gid).n_versions =
        ((doc.versionItemIds.filter (fun v => v != some (toString gid))).toFinset ∪
          (doc.inboundVersionIds.filter (fun v => v != some (toString gid))).toFinset).card) ∧
    (parse_details ⟨("boardgame"), none, false, [some ("1"), some ("1"), some ("2")],
        [some ("2"), some ("3")]⟩ 1).n_versions = 2 := by
  constructor
  · intro doc gid
    simp only [parse_details]
    rw [← List.card_toFinset, List.toFinset_append, list_toFinset_dedup, list_toFinset_dedup]
  · rfl

/-- C8 counterexample: a ratings row whose `votes` field fails to parse makes
`rank_games.load_ratings` abort with an error — the row is not silently
skipped and the remaining rows are not loaded. -/
theorem C8_counterexample :
    RankGames.load_ratings
        [⟨some ("Bad"), some ("abc"), some ("5")⟩, ⟨some ("Good"), some ("10"), some ("70")⟩]
      = Except.error () := rfl

/-- C8 (amended): `generate_page.read_games` silently skips every row whose
required numeric fields fail to parse — such a row produces no record and no
error, and all well-formed rows are still loaded, in order (`read_games` is
exactly `filterMap rowGame`); `rank_games.load_ratings`, by contrast, does
not skip: any row with a missing or unparseable required field aborts the
whole load with an error. -/
theorem C8_amended_loader_tolerance :
    (∀ (rows₁ : List RawRow) (bad : RawRow) (rows₂ : List RawRow), rowGame bad = none →
      read_games (rows₁ ++ bad :: rows₂) = read_games (rows₁ ++ rows₂)) ∧
    (∀ rows : List RawRow, read_games rows = rows.filterMap rowGame) ∧
    (∀ rows : List RatingsRow,
      (∃ r ∈ rows,
        r.name = none ∨ r.votes.bind pyInt = none ∨ r.sum_scores.bind pyFloat = none) →
      RankGames.load_ratings rows = Except.error ()) := by
  have hfm : ∀ rows : List RawRow, read_games rows = rows.filterMap rowGame := by
    intro rows
    induction rows with
    | nil => rfl
    | cons r rest ih =>
      simp only [read_games, List.filterMap_cons]
      rcases h : rowGame r with _ | g
      · simpa [h] using ih
      · simpa [h] using ih
  refine ⟨?_, hfm, ?_⟩
  · intro rows₁ bad rows₂ hbad
    rw [hfm, hfm, List.filterMap_append, List.filterMap_append, List.filterMap_cons, hbad]
  · intro rows
    induction rows with
    | nil =>
      intro h
      rcases h with ⟨w, hw, _⟩
      simp at hw
    | cons r rest ih =>
      intro h
      rcases h with ⟨w, hw, hcase⟩
      rcases List.mem_cons.mp hw with hhead | htail
      · subst hhead
        rcases hn : w.name with _ | nm
        · simp only [RankGames.load_ratings, hn]
        · rcases hv : w.votes.bind pyInt with _ | v
          · simp only [RankGames.load_ratings, hn, hv]
          · rcases hs : w.sum_scores.bind pyFloat with _ | s
            · simp only [RankGames.load_ratings, hn, hv, hs]
            · exfalso
              rcases hcase with h | h | h <;> simp_all
      · have hrest := ih ⟨w, htail, hcase⟩
        rcases hn : r.name with _ | nm
        · simp only [RankGames.load_ratings, hn]
        · rcases hv : r.votes.bind pyInt with _ | v
          · simp only [RankGames.load_ratings, hn, hv]
          · rcases hs : r.sum_scores.bind pyFloat with _ | s
            · simp only [RankGames.load_ratings, hn, hv, hs]
            · simp only [RankGames.load_ratings, hn, hv, hs, hrest]

/-- Witness for C8: a row with unparseable `Users rated` is skipped by
`read_games`, and a ratings row with unparseable `votes` aborts
`load_ratings`, both obtained from the amended theorem at concrete rows. -/
theorem C8_witness :
    rowGame ⟨some ("7"), some ("xyz"), some ("6.5"), some ("3"), none⟩ = none ∧
    read_games ([] ++ ⟨some ("7"), some ("xyz"), some ("6.5"), some ("3"), none⟩ :: []) =
      read_games ([] ++ []) ∧
    RankGames.load_ratings [⟨some ("Gloomhaven"), some ("abc"), some ("5")⟩]
      = Except.error () :=
  ⟨rfl,
    C8_amended_loader_tolerance.1 [] ⟨some ("7"), some ("xyz"), some ("6.5"), some ("3"), none⟩
      [] rfl,
    C8_amended_loader_tolerance.2.2 [⟨some ("Gloomhaven"), some ("abc"), some ("5")⟩]
      ⟨⟨some ("Gloomhaven"), some ("abc"), some ("5")⟩, by simp,
        Or.inr (Or.inl rfl)⟩⟩

/-- C1 counterexample: with a network on which the fetch for id 1 fails
(`RemoteFetchError`) and a single game whose id 1 is in the top set, the
enrichment stage of `main` aborts with the error — no report is produced,
and no record falls back to default enrichment values. -/
theorem C1_counterexample :
    mainEnrich (fun _ => Except.error ()) [1] [⟨1, 100, 7, 50, ("t"), 0, 0⟩]
      = Except.error () := rfl

/-- C1 (amended): a `RemoteFetchError` for any single selected identifier is
not contained: `main` has no handler around `fetch_details`, so whenever some
game in the list has its id among the top ids and the network fails for that
id, the whole enrichment loop — and with it the batch run, before any report
is written — aborts with the error. -/
theorem C1_amended_fetch_failure_aborts (net : ℤ → Except Unit Details)
    (topIds : List ℤ) (games : List Game)
    (h : ∃ g ∈ games, g.id ∈ topIds ∧ net g.id = Except.error ()) :
    mainEnrich net topIds games = Except.error () := by
  have main : ∀ (gs : List Game) (st : FetchState), CacheSound net st →
      (∃ g ∈ gs, g.id ∈ topIds ∧ net g.id = Except.error ()) →
      enrichTop net topIds st gs = Except.error () := by
    intro gs
    induction gs with
    | nil =>
      intro st _ hex
      rcases hex with ⟨g, hg, _⟩
      simp at hg
    | cons g rest ih =>
      intro st hsound hex
      rcases hex with ⟨w, hw, hwtop, hwerr⟩
      rcases List.mem_cons.mp hw with hhead | hwrest
      · subst hhead
        simp only [enrichTop]
        rw [if_pos hwtop]
        rcases hcache : cacheLookup st.cache w.id with _ | d
        · simp only [fetch_details, hcache, hwerr]
        · have hok := hsound w.id d hcache
          rw [hwerr] at hok
          exact absurd hok (by simp)
      · simp only [enrichTop]
        by_cases htop : g.id ∈ topIds
        · rw [if_pos htop]
          rcases hcache : cacheLookup st.cache g.id with _ | d
          · rcases hnet : net g.id with e | d₁
            · simp only [fetch_details, hcache, hnet]
            · have hsound₁ : CacheSound net ⟨(g.id, d₁) :: st.cache, st.requests ++ [g.id]⟩ := by
                intro g₁ d₂ hc
                simp only [cacheLookup] at hc
                split at hc
                · rename_i heq
                  cases hc
                  rw [← heq, hnet]
                · exact hsound g₁ d₂ hc
              have hrec := ih _ hsound₁ ⟨w, hwrest, hwtop, hwerr⟩
              simp only [fetch_details, hcache, hnet, hrec]
          · have hrec := ih st hsound ⟨w, hwrest, hwtop, hwerr⟩
            simp only [fetch_details, hcache, hrec]
        · rw [if_neg htop]
          exact ih st hsound ⟨w, hwrest, hwtop, hwerr⟩
  have h0 : CacheSound net ⟨[], []⟩ := by
    intro g d hc
    simp [cacheLookup] at hc
  have habort := main games ⟨[], []⟩ h0 h
  simp only [mainEnrich, habort]

/-- Witness for the amended C1: a one-game list whose id 2 is selected, on a
network failing for every id. -/
theorem C1_witness :
    (∃ g ∈ [(⟨2, 10, 6, 9, ("t"), 0, 0⟩ : Game)], g.id ∈ [(2 : ℤ)] ∧
      (fun _ => (Except.error () : Except Unit Details)) g.id = Except.error ()) ∧
    mainEnrich (fun _ => Except.error ()) [2] [⟨2, 10, 6, 9, ("t"), 0, 0⟩]
      = Except.error () :=
  ⟨⟨⟨2, 10, 6, 9, ("t"), 0, 0⟩, by simp, by simp, rfl⟩,
    C1_amended_fetch_failure_aborts (fun _ => Except.error ()) [2]
      [⟨2, 10, 6, 9, ("t"), 0, 0⟩]
      ⟨⟨2, 10, 6, 9, ("t"), 0, 0⟩, by simp, by simp, rfl⟩⟩

/-- One `fetch_details` call preserves the memoisation invariant. -/
theorem fetchInv_step (net : ℤ → Except Unit Details) (st : FetchState)
    (hinv : FetchInv net st) (gid : ℤ) : FetchInv net (fetch_details net st gid).2 := by
  obtain ⟨hsound, hmem, hnodup⟩ := hinv
  rcases hcache : cacheLookup st.cache gid with _ | d
  · rcases hnet : net gid with e | d
    · simp only [fetch_details, hcache, hnet]
      refine ⟨hsound, ?_, ?_⟩
      · intro g hg hok
        rcases List.mem_append.mp hg with hg | hg
        · exact hmem g hg hok
        · rw [List.mem_singleton.mp hg] at hok
          rw [isOkB, hnet] at hok
          exact absurd hok (by simp)
      · rw [List.filter_append]
        have hfe : List.filter (isOkB net) [gid] = [] := by
          simp [isOkB, hnet]
        rw [hfe, List.append_nil]
        exact hnodup
    · simp only [fetch_details, hcache, hnet]
      refine ⟨?_, ?_, ?_⟩
      · intro g₁ d₂ hc
        simp only [cacheLookup] at hc
        split at hc
        · rename_i heq
          cases hc
          rw [← heq, hnet]
        · exact hsound g₁ d₂ hc
      · intro g hg hok
        simp only [cacheLookup]
        split
        · simp
        · rename_i hne
          rcases List.mem_append.mp hg with hg | hg
          · exact hmem g hg hok
          · exact absurd (List.mem_singleton.mp hg).symm hne
      · rw [List.filter_append]
        have hfe : List.filter (isOkB net) [gid] = [gid] := by
          simp [isOkB, hnet]
        rw [hfe, List.nodup_append]
        refine ⟨hnodup, List.nodup_singleton gid, ?_⟩
        intro x hx hx1
        rw [List.mem_singleton.mp hx1] at hx
        have hgreq := List.mem_filter.mp hx
        have := hmem gid hgreq.1 hgreq.2
        exact this hcache
  · simp only [fetch_details, hcache]
    exact ⟨hsound, hmem, hnodup⟩

/-- A whole sequence of `fetch_details` calls preserves the invariant. -/
theorem fetchInv_runSeq (net : ℤ → Except Unit Details) (ids : List ℤ)
    (st : FetchState) (hinv : FetchInv net st) : FetchInv net (runSeq net st ids) := by
  induction ids generalizing st with
  | nil => exact hinv
  | cons gid rest ih => exact ih _ (fetchInv_step net st hinv gid)

/-- C9 counterexample: CPython's `lru_cache` memoises only normal returns,
so with a network on which the call for id 1 always fails, the call sequence
`[1, 1]` issues two outbound requests for the same identifier — the claimed
at-most-one-request-per-identifier invariant fails for that sequence of
`fetch_details` calls. -/
theorem C9_counterexample :
    (runSeq (fun _ => Except.error ()) ⟨[], []⟩ [1, 1]).requests = [1, 1] ∧
      ¬ ((runSeq (fun _ => Except.error ()) ⟨[], []⟩ [1, 1]).requests.Nodup) := by
  have h : (runSeq (fun _ => Except.error ()) ⟨[], []⟩ [1, 1]).requests = [1, 1] := rfl
  refine ⟨h, ?_⟩
  rw [h]
  decide

/-- C9 (amended): within one process lifetime the Enricher issues at most one
*successful* network call per distinct identifier — after every sequence of
`fetch_details` calls the successful outbound requests carry pairwise
distinct identifiers — and a repeated call for a cached identifier returns
the memoised result with no new request and unchanged state.  (A failed
fetch is not memoised, so only retrying a previously failed identifier can
issue a second request for it.) -/
theorem C9_amended_memoisation :
    (∀ (net : ℤ → Except Unit Details) (ids : List ℤ),
      (((runSeq net ⟨[], []⟩ ids).requests.filter (isOkB net))).Nodup) ∧
    (∀ (net : ℤ → Except Unit Details) (ids : List ℤ) (gid : ℤ) (d : Details),
      cacheLookup (runSeq net ⟨[], []⟩ ids).cache gid = some d →
      fetch_details net (runSeq net ⟨[], []⟩ ids) gid
        = (Except.ok d, runSeq net ⟨[], []⟩ ids)) := by
  have hinit : ∀ net : ℤ → Except Unit Details, FetchInv net ⟨[], []⟩ := by
    intro net
    refine ⟨?_, ?_, ?_⟩
    · intro g d hc
      simp [cacheLookup] at hc
    · intro g hg
      simp at hg
    · simp
  constructor
  · intro net ids
    exact (fetchInv_runSeq net ids ⟨[], []⟩ (hinit net)).2.2
  · intro net ids gid d hc
    simp only [fetch_details, hc]

/-- Witness for the amended C9: after fetching id 5 on an all-successful
network, the id is cached and a repeated call returns the memoised value
without changing the state. -/
theorem C9_witness :
    cacheLookup (runSeq (fun _ => Except.ok ⟨0, false, false, false, 0⟩) ⟨[], []⟩ [5]).cache 5
      = some ⟨0, false, false, false, 0⟩ ∧
    fetch_details (fun _ => Except.ok ⟨0, false, false, false, 0⟩)
        (runSeq (fun _ => Except.ok ⟨0, false, false, false, 0⟩) ⟨[], []⟩ [5]) 5
      = (Except.ok ⟨0, false, false, false, 0⟩,
          runSeq (fun _ => Except.ok ⟨0, false, false, false, 0⟩) ⟨[], []⟩ [5]) :=
  ⟨rfl, C9_amended_memoisation.2 (fun _ => Except.ok ⟨0, false, false, false, 0⟩) [5] 5
    ⟨0, false, false, false, 0⟩ rfl⟩

end BGR
